import Mathlib

/-!
Verification development for the GPAR repository (autoregressive chains of
Gaussian-process layers with missing-data bookkeeping).

The value model: a matrix entry is `Option ℚ`, with `none` standing for the
not-a-number missing sentinel of the source, and `some v` for a finite value.
The external GP collaborator is abstracted by explicit mean functions, since
the spec keeps the GP posterior mathematics out of scope.

The module `gpar/model.py` is not among the repository's staged files (only
its tests and `gpar/regression.py` are), so its functions `merge`, `last`,
`per_output` and `GPAR._update_inputs` are modelled from the spec's words,
pinned by the worked examples the spec and the staged tests share.
-/

namespace GPARModel

/-- A matrix entry: `none` models the missing (not-a-number) sentinel. -/
abbrev Val := Option ℚ

/-- A row of a design or target matrix. -/
abbrev Row := List Val

/-- Modelled from the spec: `merge` of the missing module `gpar/model.py`.
Spec: "for each position, result = updates value where mask is true, else
original"; successive update values are consumed at the true positions of
the mask. -/
def merge {α : Type} : List α → List α → List Bool → List α
  | [], _, _ => []
  | _ :: _, _, [] => []
  | _ :: os, u :: us, true :: ms => u :: merge os us ms
  | o :: os, [], true :: ms => o :: merge os [] ms
  | o :: os, us, false :: ms => o :: merge os us ms

/-- Modelled from the spec: `last` of the missing module `gpar/model.py`.
For each key in `ks` (the default being every sequential position of `xs`),
it pairs the element `xs` holds at that key with a flag that is true exactly
when the key is the greatest index of the whole sequence. -/
def lastFlag {α : Type} (xs : List α) (ks : List Nat) : List (Bool × Option α) :=
  ks.map fun k => (decide (k = xs.length - 1), xs.get? k)

/-- `last` with its default keys: every sequential position. -/
def lastAll {α : Type} (xs : List α) : List (Bool × Option α) :=
  lastFlag xs (List.range xs.length)

/-- Keep the entries of a list at the true positions of a boolean mask. -/
def filterByMask {α : Type} : List α → List Bool → List α
  | x :: xs, b :: bs => if b then x :: filterByMask xs bs else filterByMask xs bs
  | _, _ => []

/-- Modelled from the spec: the membership flag `per_output` computes for one
row at one output column.  The row is the remaining columns (current column
first).  The row is kept when the current column is observed; in keep mode a
row is also kept — before the final column — when any later column of the row
is still observed. -/
def rowKeepFlag (keep : Bool) (isLastCol : Bool) (row : Row) : Bool :=
  match row with
  | [] => false
  | v :: rest => v.isSome || (keep && !isLastCol && rest.any Option.isSome)

/-- Modelled from the spec: the column scan of `per_output`.  `n + 1` is the
number of columns still to process; each step emits the kept rows' current
column together with the membership mask over the rows that survived the
previous steps, then drops the current column and the rejected rows. -/
def perOutputAux (keep : Bool) : Nat → List Row → List (List Val × List Bool)
  | 0, _ => []
  | n + 1, rows =>
    let mask := rows.map (rowKeepFlag keep (n == 0))
    let kept := filterByMask rows mask
    (kept.map (fun r => r.headD none), mask) ::
      perOutputAux keep n (kept.map (fun r => r.drop 1))

/-- Modelled from the spec: `per_output` of the missing module
`gpar/model.py`, which groups training rows by the missing-value pattern of
one output column at a time, from the first output column to the last.  Its
exact behaviour is pinned by the worked example of the spec (and the staged
test `test_per_output`). -/
def perOutput (y : List Row) (keep : Bool) : List (List Val × List Bool) :=
  perOutputAux keep (y.headD []).length y

/-- The worked target matrix of the spec's testable-properties section. -/
def yExample : List Row :=
  [[some 1, some 2, none, none],
   [some 3, none, some 4, none],
   [some 5, some 6, some 7, none],
   [some 8, none, none, none],
   [some 9, some 10, none, none],
   [some 11, none, none, some 12]]

/-- The replace/impute policy flags of a GPAR chain. -/
structure GPARCfg where
  replace : Bool
  impute : Bool
deriving DecidableEq

/-- Modelled from the spec: the per-entry policy of the column
`GPAR._update_inputs` appends.  `mu` is the layer's predictive mean at a
row's input location, `p` pairs a design-matrix row with its output value.
Neither flag: the value passes through verbatim.  Impute only: a missing
value is filled with the predictive mean, an observed one passes through.
Replace only: an observed value is replaced by the predictive mean, a
missing one stays missing.  Both: every value becomes the predictive mean. -/
def colEntry (cfg : GPARCfg) (mu : Row → ℚ) (p : Row × Val) : Val :=
  if cfg.replace && cfg.impute then some (mu p.1)
  else if cfg.impute then
    match p.2 with
    | none => some (mu p.1)
    | some v => some v
  else if cfg.replace then
    match p.2 with
    | none => none
    | some _ => some (mu p.1)
  else p.2

/-- The processed output column `GPAR._update_inputs` appends. -/
def newColumn (cfg : GPARCfg) (mu : Row → ℚ) (x : List Row) (y : List Val) :
    List Val :=
  (x.zip y).map (colEntry cfg mu)

/-- Modelled from the spec: `GPAR._update_inputs` of the missing module
`gpar/model.py`.  `priorMean`/`postMean` abstract the layer GP's predictive
mean under the prior and under the posterior conditioning object; `hasObs`
records whether such an object was given.  The processed output column is
appended to the design matrix, and the inducing-point companion matrix
always receives the predictive mean at the inducing locations as its new
column, whatever the flags. -/
def updateInputs (cfg : GPARCfg) (x : List Row) (xInd : Option (List Row))
    (y : List Val) (priorMean postMean : Row → ℚ) (hasObs : Bool) :
    List Row × Option (List Row) :=
  ((x.zip (newColumn cfg (if hasObs then postMean else priorMean) x y)).map
      (fun p => p.1 ++ [p.2]),
   xInd.map (fun rows => rows.map
      (fun r => r ++ [some ((if hasObs then postMean else priorMean) r)])))

/-- The design matrix of the spec's literal `_update_inputs` scenario. -/
def xScen : List Row := [[some 1], [some 2], [some 3]]

/-- The output column of the spec's literal `_update_inputs` scenario. -/
def yScen : List Val := [some 4, some 5, some 6]

/-- The scenario's output column with its middle entry missing. -/
def yScenMiss : List Val := [some 4, none, some 6]

/-- The inducing-point matrix of the spec's literal scenario. -/
def xIndScen : List Row := [[some 6], [some 7]]

/-- The zero prior-mean function of the scenario's zero-mean prior GP. -/
def zeroMean : Row → ℚ := fun _ => 0

end GPARModel

namespace GPARRegression

/-- The Python error classes the regression front end can raise on entry. -/
inductive PyError where
  | valueError
  | attributeError
  | runtimeError
  | notImplementedError
deriving DecidableEq

/-- `np.expand_dims(x, 1)` on the shape level: a length-one axis is inserted
at position 1 (legacy insert semantics, as the source's numpy era applies to
rank-zero arrays too). -/
def expandDims1 (shape : List Nat) : List Nat :=
  shape.take 1 ++ [1] ++ shape.drop 1

/-- `_uprank` of `src/gpar/regression.py` on the shape level.  Rank above two
is meant to raise the `ValueError('Invalid rank ...')`, but formatting that
message calls `np.ndims`, an attribute numpy does not have, so the call dies
with an `AttributeError` instead.  Ranks zero and one are promoted to rank
two by repeatedly inserting an axis at position 1. -/
def uprankShape (shape : List Nat) : Except PyError (List Nat) :=
  if shape.length > 2 then .error .attributeError
  else if shape.length = 0 then .ok (expandDims1 (expandDims1 shape))
  else if shape.length = 1 then .ok (expandDims1 shape)
  else .ok shape

/-- The entry checks of `GPARRegressor.sample`: first `_uprank(x)` (which
fails on rank above two), then the fit-state check for posterior sampling
(`RuntimeError`), then the output-count check for prior sampling
(`ValueError`); only then does sampling proceed (abstracted as `.ok ()`). -/
def sampleEntry (xRank : Nat) (isFit posterior pGiven : Bool) :
    Except PyError Unit :=
  if xRank > 2 then .error .attributeError
  else if posterior && !isFit then .error .runtimeError
  else if !posterior && !pGiven then .error .valueError
  else .ok ()

/-- The entry checks of `GPARRegressor.logpdf`: `_uprank` on both arguments,
then the fit-state check for the posterior density (`RuntimeError`); only
then is any density computed (abstracted as `.ok ()`). -/
def logpdfEntry (xRank yRank : Nat) (isFit posterior : Bool) :
    Except PyError Unit :=
  if xRank > 2 ∨ yRank > 2 then .error .attributeError
  else if posterior && !isFit then .error .runtimeError
  else .ok ()

/-- The two return shapes of `GPARRegressor.sample`: a bare array, or a list
of arrays. -/
inductive SampleReturn (α : Type) where
  | single : α → SampleReturn α
  | list : List α → SampleReturn α
deriving DecidableEq

/-- The return shaping of `GPARRegressor.sample`: the drawn samples are
`[draw(0), ..., draw(numSamples - 1)]` (`draw` abstracts one posterior or
prior draw), and `samples[0] if num_samples == 1 else samples` is returned. -/
def sampleReturn {α : Type} [Inhabited α] (draw : Nat → α) (numSamples : Nat) :
    SampleReturn α :=
  let samples := (List.range numSamples).map draw
  if numSamples == 1 then .single (samples.getD 0 default) else .list samples

/-- The sort inside `np.percentile`, modelled with insertion sort (for a
total order the sorted rearrangement is unique, so the algorithm choice is
immaterial). -/
def sortQ (xs : List ℚ) : List ℚ := xs.insertionSort (· ≤ ·)

/-- The linear interpolation of `np.percentile` at fractional rank `h` over
an already sorted list: with `i = floor h`, the value is
`s[i] + (h - i) * (s[i+1] - s[i])`, clamped to `s[i]` at the top end. -/
def interpAt (s : List ℚ) (h : ℚ) : ℚ :=
  match s.get? h.floor.toNat, s.get? (h.floor.toNat + 1) with
  | some a, some b => a + (h - (h.floor.toNat : ℚ)) * (b - a)
  | some a, none => a
  | none, _ => 0

/-- `np.percentile(xs, q)` with the default linear interpolation: the
fractional rank is `q / 100 * (n - 1)`. -/
def percentileQ (q : ℚ) (xs : List ℚ) : ℚ :=
  interpAt (sortQ xs) (q * ((xs.length : ℚ) - 1) / 100)

/-- One entry position across all drawn samples (each sample flattened to the
list of its entries), as `np.mean`/`np.percentile` with `axis=0` read it. -/
def colAt (samples : List (List ℚ)) (j : Nat) : List ℚ :=
  samples.map fun s => s.getD j 0

/-- The number of entries of each drawn sample. -/
def sampleWidth (samples : List (List ℚ)) : Nat := (samples.headD []).length

/-- The arithmetic mean of a list of rationals (`np.mean`). -/
def meanQ (xs : List ℚ) : ℚ := xs.sum / (xs.length : ℚ)

/-- `np.mean(samples, axis=0)`: the elementwise mean across the samples. -/
def predictMean (samples : List (List ℚ)) : List ℚ :=
  (List.range (sampleWidth samples)).map fun j => meanQ (colAt samples j)

/-- `np.percentile(samples, q, axis=0)`: the elementwise percentile across
the samples. -/
def predictPercentile (q : ℚ) (samples : List (List ℚ)) : List ℚ :=
  (List.range (sampleWidth samples)).map fun j => percentileQ q (colAt samples j)

/-- The post-processing of `GPARRegressor.predict` with
`credible_bounds=True`: the elementwise sample mean, the 2.5th percentile
and the 97.5th percentile across the drawn samples. -/
def predictCB (samples : List (List ℚ)) : List ℚ × List ℚ × List ℚ :=
  (predictMean samples, predictPercentile (5 / 2) samples,
   predictPercentile (195 / 2) samples)

/-- A realizable set of 41 posterior draws of a single scalar entry: one
draw of -1000 and forty draws of 0 (a nondegenerate Gaussian gives every
outcome vector positive density, so such a draw set can occur). -/
def cexSamples : List (List ℚ) := [-1000] :: List.replicate 40 [0]

end GPARRegression

namespace GPARModel

lemma merge_length {α : Type} :
    ∀ (o u : List α) (m : List Bool), m.length = o.length →
      (merge o u m).length = o.length := by
  intro o
  induction o with
  | nil => intro u m _; cases m <;> cases u <;> simp [merge]
  | cons a os ih =>
    intro u m hm
    cases m with
    | nil => simp at hm
    | cons b ms =>
      simp only [List.length_cons, Nat.succ.injEq] at hm
      cases b <;> cases u <;> simp [merge, ih _ ms hm]

lemma merge_getD {α : Type} (d : α) :
    ∀ (o u : List α) (m : List Bool) (i : Nat), m.length = o.length →
      m.count true ≤ u.length → i < o.length →
      (merge o u m).getD i d =
        if m.getD i false then u.getD ((m.take i).count true) d
        else o.getD i d := by
  intro o
  induction o with
  | nil => intro u m i _ _ hi; simp at hi
  | cons a os ih =>
    intro u m i hm hc hi
    cases m with
    | nil => simp at hm
    | cons b ms =>
      simp only [List.length_cons, Nat.succ.injEq] at hm
      cases b with
      | true =>
        have hpos : 0 < u.length := by
          have : 0 < (true :: ms).count true := by simp
          omega
        cases u with
        | nil => simp at hpos
        | cons v us =>
          have hc2 : ms.count true ≤ us.length := by
            have : (true :: ms).count true = ms.count true + 1 := by simp
            simp only [List.length_cons] at hc
            omega
          cases i with
          | zero => simp [merge]
          | succ j =>
            have hj : j < os.length := by
              simp only [List.length_cons] at hi; omega
            simp only [merge, List.getD_cons_succ, List.take_succ_cons,
              List.getD_cons_succ]
            rw [ih us ms j hm hc2 hj]
            simp [List.count_cons]
      | false =>
        have hc2 : ms.count true ≤ u.length := by
          have : (false :: ms).count true = ms.count true := by simp
          omega
        cases i with
        | zero => simp [merge]
        | succ j =>
          have hj : j < os.length := by
            simp only [List.length_cons] at hi; omega
          simp only [merge, List.getD_cons_succ, List.take_succ_cons]
          rw [ih u ms j hm hc2 hj]
          simp [List.count_cons]

lemma zip_map_append (f : Row × Val → Val) :
    ∀ (x : List Row) (y : List Val),
      (x.zip ((x.zip y).map f)).map (fun p => p.1 ++ [p.2])
        = (x.zip y).map (fun p => p.1 ++ [f p]) := by
  intro x
  induction x with
  | nil => intro y; simp
  | cons a xs ih =>
    intro y
    cases y with
    | nil => simp
    | cons b ys => simp [ih ys]

lemma updateInputs_fst (cfg : GPARCfg) (x : List Row)
    (xInd : Option (List Row)) (y : List Val) (pm qm : Row → ℚ) (obs : Bool) :
    (updateInputs cfg x xInd y pm qm obs).1
      = (x.zip y).map
          (fun p => p.1 ++ [colEntry cfg (if obs then qm else pm) p]) := by
  unfold updateInputs newColumn
  exact zip_map_append _ x y

lemma take_append_single {α : Type} (l : List α) (v : α) :
    (l ++ [v]).take ((l ++ [v]).length - 1) = l := by
  have h : (l ++ [v]).length - 1 = l.length := by simp
  rw [h]
  exact List.take_left l [v]

lemma lastFlag_getD (xs : List ℚ) (ks : List Nat) (i : Nat)
    (hi : i < ks.length) :
    (lastFlag xs ks).getD i (true, none)
      = (decide (ks.getD i 0 = xs.length - 1), xs.get? (ks.getD i 0)) := by
  unfold lastFlag
  rw [List.getD_eq_getElem?_getD, List.getElem?_map]
  have hk : ks[i]? = some (ks.getD i 0) := by
    rw [List.getD_eq_getElem?_getD]
    cases h : ks[i]? with
    | none =>
      exact absurd (List.getElem?_eq_none_iff.mp h) (by omega)
    | some v => simp
  rw [hk]
  simp

/-- Claim C1: on the worked target matrix, `per_output` with `keep=False`
yields exactly the row-value columns `[1,3,5,8,9,11]` (mask all-true),
`[2,6,10]` (mask `[T,F,T,F,T,F]`), `[7]` (mask `[F,T,F]`) and `[]` (mask
`[F]`), and with `keep=True` exactly `[1,3,5,8,9,11]` (all-true),
`[2,∅,6,10,∅]` (`[T,T,T,F,T,T]`), `[4,7,∅]` (`[F,T,T,F,T]`) and `[12]`
(`[F,F,T]`), in that order, where `∅` is the missing sentinel. -/
theorem per_output_worked_example_c1 :
    perOutput yExample false =
      [([some 1, some 3, some 5, some 8, some 9, some 11],
        [true, true, true, true, true, true]),
       ([some 2, some 6, some 10], [true, false, true, false, true, false]),
       ([some 7], [false, true, false]),
       ([], [false])] ∧
    perOutput yExample true =
      [([some 1, some 3, some 5, some 8, some 9, some 11],
        [true, true, true, true, true, true]),
       ([some 2, none, some 6, some 10, none],
        [true, true, true, false, true, true]),
       ([some 4, some 7, none], [false, true, true, false, true]),
       ([some 12], [false, false, true])] :=
  ⟨by decide, by decide⟩

/-- Claim C2: on the literal scenario `x = [[1],[2],[3]]`,
`y = [[4],[5],[6]]`, `x_ind = [[6],[7]]` with a zero-mean prior GP and no
posterior given, `_update_inputs` returns the stated matrices in all four
flag cases, and in every case (for every configuration, inputs and mean
functions) the inducing-point matrix gets the layer's predictive mean at
the inducing locations appended as a new column — the posterior mean
whenever a posterior conditioning object is given. -/
theorem update_inputs_scenario_c2 :
    (∀ qm : Row → ℚ,
      updateInputs ⟨false, false⟩ xScen (some xIndScen) yScen zeroMean qm false
        = ([[some 1, some 4], [some 2, some 5], [some 3, some 6]],
           some [[some 6, some 0], [some 7, some 0]])) ∧
    (∀ qm : Row → ℚ,
      updateInputs ⟨false, true⟩ xScen (some xIndScen) yScenMiss zeroMean qm
          false
        = ([[some 1, some 4], [some 2, some 0], [some 3, some 6]],
           some [[some 6, some 0], [some 7, some 0]])) ∧
    (∀ qm : Row → ℚ,
      updateInputs ⟨true, false⟩ xScen (some xIndScen) yScenMiss zeroMean qm
          false
        = ([[some 1, some 0], [some 2, none], [some 3, some 0]],
           some [[some 6, some 0], [some 7, some 0]])) ∧
    (∀ qm : Row → ℚ,
      updateInputs ⟨true, true⟩ xScen (some xIndScen) yScen zeroMean qm false
        = ([[some 1, some 0], [some 2, some 0], [some 3, some 0]],
           some [[some 6, some 0], [some 7, some 0]])) ∧
    (∀ (cfg : GPARCfg) (x : List Row) (xInd : List Row) (y : List Val)
        (pm qm : Row → ℚ) (obs : Bool),
      (updateInputs cfg x (some xInd) y pm qm obs).2
        = some (xInd.map (fun r => r ++ [some ((if obs then qm else pm) r)]))) :=
  ⟨fun _ => rfl, fun _ => rfl, fun _ => rfl, fun _ => rfl,
   fun _ _ _ _ _ _ _ => rfl⟩

/-- Claim C3 counterexample: with `replace=True` and `impute=False` on the
literal scenario with the middle output missing, the appended column is
`[0, ∅, 0]` — the missing entry is NOT replaced by the predictive mean 0,
refuting "replaces all entries of the newly appended output column, missing
or not, with the predictive mean". -/
theorem update_inputs_replace_counterexample_c3 :
    (updateInputs ⟨true, false⟩ xScen (some xIndScen) yScenMiss zeroMean
        zeroMean false).1
      = [[some 1, some 0], [some 2, none], [some 3, some 0]] ∧
    [some 2, (none : Val)] ≠ [some 2, some (zeroMean [some 2])] :=
  ⟨by decide, by decide⟩

/-- Claim C3 (amended): whenever `replace=True`, `_update_inputs` replaces
every observed entry of the newly appended output column with the GP's
predictive mean; a missing entry is filled with the predictive mean only
when `impute=True` as well, and otherwise stays missing. -/
theorem update_inputs_replace_amended_c3 :
    ∀ (imp : Bool) (x : List Row) (xInd : Option (List Row)) (y : List Val)
      (pm qm : Row → ℚ) (obs : Bool),
      (updateInputs ⟨true, imp⟩ x xInd y pm qm obs).1
        = (x.zip y).map (fun p => p.1 ++
            [match p.2 with
             | some _ => some ((if obs then qm else pm) p.1)
             | none =>
               if imp then some ((if obs then qm else pm) p.1) else none]) := by
  intro imp x xInd y pm qm obs
  rw [updateInputs_fst]
  apply List.map_congr_left
  intro p _
  rcases p with ⟨r, v⟩
  cases imp <;> cases v <;> simp [colEntry]

/-- Claim C5: `merge` keeps the original value where the mask is false and
takes the next unconsumed update value where it is true, its output length
equals the input length, and the two concrete examples of the spec hold.
Purity holds trivially in this functional model. -/
theorem merge_spec_c5 :
    (∀ (original updates : List ℚ) (mask : List Bool),
      mask.length = original.length →
      (merge original updates mask).length = original.length) ∧
    (∀ (original updates : List ℚ) (mask : List Bool) (i : Nat),
      mask.length = original.length → mask.count true ≤ updates.length →
      i < original.length →
      (merge original updates mask).getD i 0 =
        if mask.getD i false then updates.getD ((mask.take i).count true) 0
        else original.getD i 0) ∧
    merge ([1, 2, 3, 4] : List ℚ) [5, 6] [true, true, false, false]
      = [5, 6, 3, 4] ∧
    merge ([1, 2, 3, 4] : List ℚ) [5, 6] [true, false, true, false]
      = [5, 2, 6, 4] :=
  ⟨fun o u m h => merge_length o u m h,
   fun o u m i h1 h2 h3 => merge_getD 0 o u m i h1 h2 h3,
   by decide, by decide⟩

/-- Claim C5 witness: the length and pointwise parts evaluated on the
concrete second example. -/
theorem merge_spec_c5_witness :
    (merge ([1, 2, 3, 4] : List ℚ) [5, 6] [true, false, true, false]).length
      = 4 ∧
    (merge ([1, 2, 3, 4] : List ℚ) [5, 6] [true, false, true, false]).getD 2 0
      = 6 :=
  ⟨merge_spec_c5.1 [1, 2, 3, 4] [5, 6] [true, false, true, false] (by decide),
   by
    rw [merge_spec_c5.2.1 [1, 2, 3, 4] [5, 6] [true, false, true, false] 2
      (by decide) (by decide) (by decide)]
    decide⟩

/-- Claim C6: for each requested key, `last` pairs the element at that key
with a flag that is true exactly when the key is the greatest index of the
sequence, and the three concrete examples of the spec hold. -/
theorem last_flag_spec_c6 :
    (∀ (xs : List ℚ) (ks : List Nat) (i : Nat), i < ks.length →
      ((((lastFlag xs ks).getD i (true, none)).1 = true) ↔
        ks.getD i 0 = xs.length - 1) ∧
      ((lastFlag xs ks).getD i (true, none)).2 = xs.get? (ks.getD i 0)) ∧
    lastAll ([1, 2, 3, 4] : List ℚ)
      = [(false, some 1), (false, some 2), (false, some 3), (true, some 4)] ∧
    lastFlag ([1, 2, 3, 4] : List ℚ) [1, 2]
      = [(false, some 2), (false, some 3)] ∧
    lastFlag ([1, 2, 3, 4] : List ℚ) [0, 3]
      = [(false, some 1), (true, some 4)] := by
  refine ⟨?_, by decide, by decide, by decide⟩
  intro xs ks i hi
  rw [lastFlag_getD xs ks i hi]
  exact ⟨by simp, rfl⟩

/-- Claim C6 witness: the general characterisation evaluated at the third
concrete example's first key. -/
theorem last_flag_spec_c6_witness :
    (0 : Nat) < 2 ∧
    (((((lastFlag ([1, 2, 3, 4] : List ℚ) [0, 3]).getD 0 (true, none)).1
        = true) ↔
      ([0, 3] : List Nat).getD 0 0 = ([1, 2, 3, 4] : List ℚ).length - 1) ∧
    ((lastFlag ([1, 2, 3, 4] : List ℚ) [0, 3]).getD 0 (true, none)).2
      = ([1, 2, 3, 4] : List ℚ).get? (([0, 3] : List Nat).getD 0 0)) :=
  ⟨by decide, last_flag_spec_c6.1 [1, 2, 3, 4] [0, 3] 0 (by decide)⟩

/-- Claim C7: with neither replace nor impute, `_update_inputs` appends
exactly one column to the design matrix and to the inducing-point matrix,
and slicing each back to its original columns reproduces it exactly. -/
theorem update_inputs_roundtrip_c7 :
    ∀ (x : List Row) (xInd : List Row) (y : List Val) (pm qm : Row → ℚ)
      (obs : Bool), y.length = x.length →
      ((updateInputs ⟨false, false⟩ x (some xInd) y pm qm obs).1.map
          (fun row => row.take (row.length - 1)) = x) ∧
      ((updateInputs ⟨false, false⟩ x (some xInd) y pm qm obs).1.map
          List.length = x.map (fun row => row.length + 1)) ∧
      (((updateInputs ⟨false, false⟩ x (some xInd) y pm qm obs).2.getD []).map
          (fun row => row.take (row.length - 1)) = xInd) ∧
      (((updateInputs ⟨false, false⟩ x (some xInd) y pm qm obs).2.getD []).map
          List.length = xInd.map (fun row => row.length + 1)) := by
  intro x xInd y pm qm obs hlen
  have hfst := updateInputs_fst ⟨false, false⟩ x (some xInd) y pm qm obs
  have hsnd : (updateInputs ⟨false, false⟩ x (some xInd) y pm qm obs).2
      = some (xInd.map (fun r => r ++ [some ((if obs then qm else pm) r)])) :=
    rfl
  refine ⟨?_, ?_, ?_, ?_⟩
  · rw [hfst, List.map_map]
    have he : ∀ p ∈ x.zip y, ((fun row : Row => row.take (row.length - 1)) ∘
        (fun p : Row × Val =>
          p.1 ++ [colEntry ⟨false, false⟩ (if obs then qm else pm) p])) p
          = p.1 := by
      intro p _
      simp [Function.comp, take_append_single]
    rw [List.map_congr_left he]
    exact List.map_fst_zip x y (le_of_eq hlen.symm)
  · rw [hfst, List.map_map]
    have he : ∀ p ∈ x.zip y, (List.length ∘
        (fun p : Row × Val =>
          p.1 ++ [colEntry ⟨false, false⟩ (if obs then qm else pm) p])) p
          = p.1.length + 1 := by
      intro p _
      simp [Function.comp]
    rw [List.map_congr_left he]
    have hc : (fun p : Row × Val => p.1.length + 1)
        = (fun row : Row => row.length + 1) ∘ Prod.fst := rfl
    rw [hc, ← List.map_map, List.map_fst_zip x y (le_of_eq hlen.symm)]
  · rw [hsnd]
    simp only [Option.getD_some, List.map_map]
    have he : ∀ r ∈ xInd, ((fun row : Row => row.take (row.length - 1)) ∘
        (fun r : Row => r ++ [some ((if obs then qm else pm) r)])) r = r := by
      intro r _
      simp [Function.comp, take_append_single]
    rw [List.map_congr_left he]
    simp
  · rw [hsnd]
    simp only [Option.getD_some, List.map_map]
    have he : ∀ r ∈ xInd, (List.length ∘
        (fun r : Row => r ++ [some ((if obs then qm else pm) r)])) r
          = r.length + 1 := by
      intro r _
      simp [Function.comp]
    rw [List.map_congr_left he]

/-- Claim C7 witness: the round trip evaluated on the literal scenario. -/
theorem update_inputs_roundtrip_c7_witness :
    yScen.length = xScen.length ∧
    ((updateInputs ⟨false, false⟩ xScen (some xIndScen) yScen zeroMean
        zeroMean false).1.map (fun row => row.take (row.length - 1)) = xScen) :=
  ⟨by decide,
   (update_inputs_roundtrip_c7 xScen xIndScen yScen zeroMean zeroMean false
     (by decide)).1⟩

end GPARModel

namespace GPARRegression

lemma sorted_sortQ (xs : List ℚ) : (sortQ xs).Sorted (· ≤ ·) :=
  List.sorted_insertionSort _ xs

lemma length_sortQ (xs : List ℚ) : (sortQ xs).length = xs.length :=
  List.length_insertionSort _ xs

lemma sorted_get_le {s : List ℚ} (hs : s.Sorted (· ≤ ·)) {i j : Nat}
    (hij : i ≤ j) (hj : j < s.length) :
    s.get ⟨i, lt_of_le_of_lt hij hj⟩ ≤ s.get ⟨j, hj⟩ :=
  hs.rel_get_of_le (Fin.mk_le_mk.mpr hij)

lemma floor_toNat_cast {h : ℚ} (h0 : 0 ≤ h) :
    ((h.floor.toNat : ℚ)) = (h.floor : ℚ) := by
  have : (0 : ℤ) ≤ h.floor := Int.floor_nonneg.mpr h0
  exact_mod_cast congrArg (fun z : ℤ => (z : ℚ)) (Int.toNat_of_nonneg this)

lemma floor_toNat_le {h : ℚ} (h0 : 0 ≤ h) : ((h.floor.toNat : ℚ)) ≤ h := by
  rw [floor_toNat_cast h0]; exact Int.floor_le h

lemma lt_floor_toNat_add_one {h : ℚ} (h0 : 0 ≤ h) :
    h < (h.floor.toNat : ℚ) + 1 := by
  rw [floor_toNat_cast h0]; exact_mod_cast Int.lt_floor_add_one h

/-- For a sorted list, the linearly interpolated value at rank `h` is at
least the entry at position `floor h`. -/
lemma get_le_interpAt {s : List ℚ} (hs : s.Sorted (· ≤ ·)) {h : ℚ}
    (h0 : 0 ≤ h) (hlt : h.floor.toNat < s.length) :
    s.get ⟨h.floor.toNat, hlt⟩ ≤ interpAt s h := by
  unfold interpAt
  rw [List.get?_eq_get hlt]
  rcases hb : s.get? (h.floor.toNat + 1) with _ | b
  · dsimp only
    exact le_rfl
  · dsimp only
    obtain ⟨hlt2, hbv⟩ := List.get?_eq_some.mp hb
    have hble : s.get ⟨h.floor.toNat, hlt⟩ ≤ b := by
      rw [← hbv]; exact sorted_get_le hs (Nat.le_succ _) hlt2
    have hfrac : 0 ≤ h - (h.floor.toNat : ℚ) := sub_nonneg.mpr (floor_toNat_le h0)
    nlinarith

/-- For a sorted list, the linearly interpolated value at rank `h` is at most
the entry at position `floor h + 1` when that position exists. -/
lemma interpAt_le_get_succ {s : List ℚ} (hs : s.Sorted (· ≤ ·)) {h : ℚ}
    (h0 : 0 ≤ h) (hlt2 : h.floor.toNat + 1 < s.length) :
    interpAt s h ≤ s.get ⟨h.floor.toNat + 1, hlt2⟩ := by
  have hlt : h.floor.toNat < s.length := Nat.lt_of_succ_lt hlt2
  unfold interpAt
  rw [List.get?_eq_get hlt, List.get?_eq_get hlt2]
  dsimp only
  have hab : s.get ⟨h.floor.toNat, hlt⟩ ≤ s.get ⟨h.floor.toNat + 1, hlt2⟩ :=
    sorted_get_le hs (Nat.le_succ _) hlt2
  have hfr0 : 0 ≤ h - (h.floor.toNat : ℚ) := sub_nonneg.mpr (floor_toNat_le h0)
  have hfr1 : h - (h.floor.toNat : ℚ) ≤ 1 := by
    have := lt_floor_toNat_add_one h0; linarith
  nlinarith

/-- Monotonicity of the linear interpolation over a sorted list, for ranks
within the valid range. -/
lemma interpAt_mono {s : List ℚ} (hs : s.Sorted (· ≤ ·)) {h1 h2 : ℚ}
    (h10 : 0 ≤ h1) (h12 : h1 ≤ h2) (h2n : h2 ≤ (s.length : ℚ) - 1) :
    interpAt s h1 ≤ interpAt s h2 := by
  have h20 : 0 ≤ h2 := le_trans h10 h12
  have hi12 : h1.floor.toNat ≤ h2.floor.toNat :=
    Int.toNat_le_toNat (Int.floor_le_floor h12)
  have hi2cast : ((h2.floor.toNat : ℚ)) ≤ (s.length : ℚ) - 1 :=
    le_trans (floor_toNat_le h20) h2n
  have hi2 : h2.floor.toNat < s.length := by
    by_contra hc
    push_neg at hc
    have : (s.length : ℚ) ≤ (h2.floor.toNat : ℚ) := by exact_mod_cast hc
    linarith
  rcases Nat.lt_or_ge h1.floor.toNat h2.floor.toNat with hlt | hge
  · -- the ranks fall in different segments
    have hsucc : h1.floor.toNat + 1 ≤ h2.floor.toNat := hlt
    have hlt2 : h1.floor.toNat + 1 < s.length := lt_of_le_of_lt hsucc hi2
    calc interpAt s h1 ≤ s.get ⟨h1.floor.toNat + 1, hlt2⟩ :=
          interpAt_le_get_succ hs h10 hlt2
      _ ≤ s.get ⟨h2.floor.toNat, hi2⟩ := sorted_get_le hs hsucc hi2
      _ ≤ interpAt s h2 := get_le_interpAt hs h20 hi2
  · -- the ranks share a segment
    have heq : h1.floor.toNat = h2.floor.toNat := le_antisymm hi12 hge
    unfold interpAt
    rw [heq, List.get?_eq_get hi2]
    rcases hb : s.get? (h2.floor.toNat + 1) with _ | b
    · dsimp only
      exact le_rfl
    · dsimp only
      obtain ⟨hlt2, hbv⟩ := List.get?_eq_some.mp hb
      have hble : s.get ⟨h2.floor.toNat, hi2⟩ ≤ b := by
        rw [← hbv]; exact sorted_get_le hs (Nat.le_succ _) hlt2
      have hc1 : ((h2.floor.toNat : ℚ)) ≤ h1 := by
        rw [← heq]; exact floor_toNat_le h10
      nlinarith

/-- `np.percentile` is monotone in the requested percentile. -/
lemma percentileQ_mono (xs : List ℚ) {q1 q2 : ℚ} (hq1 : 0 ≤ q1)
    (h12 : q1 ≤ q2) (hq2 : q2 ≤ 100) :
    percentileQ q1 xs ≤ percentileQ q2 xs := by
  rcases xs with _ | ⟨a, rest⟩
  · simp [percentileQ, sortQ, interpAt, List.insertionSort]
  · set xs := a :: rest with hxs
    have hn : 1 ≤ (xs.length : ℚ) := by
      have : 1 ≤ xs.length := by simp [hxs]
      exact_mod_cast this
    have hnn : (0 : ℚ) ≤ (xs.length : ℚ) - 1 := by linarith
    apply interpAt_mono (sorted_sortQ xs)
    · positivity
    · have hmul := mul_le_mul_of_nonneg_right h12 hnn
      linarith
    · rw [length_sortQ]
      rw [div_le_iff₀ (by norm_num : (0 : ℚ) < 100)]
      nlinarith

lemma sorted_replicate (n : Nat) (a : ℚ) :
    (List.replicate n a).Sorted (· ≤ ·) := by
  induction n with
  | zero => simp
  | succ k ih =>
    rw [List.replicate_succ, List.sorted_cons]
    exact ⟨fun b hb => le_of_eq (List.eq_of_mem_replicate hb).symm, ih⟩

lemma getD_map_range (f : Nat → ℚ) (w j : Nat) :
    ((List.range w).map f).getD j 0 = if j < w then f j else 0 := by
  rcases Nat.lt_or_ge j w with h | h
  · rw [if_pos h, List.getD_eq_getElem?_getD, List.getElem?_map,
      List.getElem?_range h]
    rfl
  · rw [if_neg (by omega), List.getD_eq_getElem?_getD,
      List.getElem?_eq_none (by simp; omega)]
    rfl

/-- Claim C4 counterexample: for a realizable set of 41 scalar posterior
draws (one -1000, forty 0), the post-processing of `predict` with credible
bounds returns a lower bound (2.5th percentile, 0) strictly above the mean
(-1000/41), so "lower ≤ mean ≤ upper at every finite entry" fails. -/
theorem predict_bounds_counterexample_c4 :
    ¬ ((predictCB cexSamples).2.1.getD 0 0
        ≤ (predictCB cexSamples).1.getD 0 0) := by
  have hw : sampleWidth cexSamples = 1 := rfl
  have hcol : colAt cexSamples 0 = -1000 :: List.replicate 40 0 := by
    simp [cexSamples, colAt]
  have hsorted : List.Sorted (· ≤ ·) (-1000 :: List.replicate 40 (0 : ℚ)) := by
    rw [List.sorted_cons]
    refine ⟨fun b hb => ?_, sorted_replicate 40 0⟩
    rw [List.eq_of_mem_replicate hb]
    norm_num
  have hsql : sortQ (-1000 :: List.replicate 40 (0 : ℚ))
      = -1000 :: List.replicate 40 0 :=
    List.Sorted.insertionSort_eq hsorted
  have hlen41 : (((-1000 :: List.replicate 40 (0 : ℚ)).length : ℚ)) = 41 := by
    simp
  have hrank : (5 / 2 : ℚ)
      * (((-1000 :: List.replicate 40 (0 : ℚ)).length : ℚ) - 1) / 100 = 1 := by
    rw [hlen41]; norm_num
  have hfloor1 : ((1 : ℚ).floor.toNat) = 1 := rfl
  have hr1 : List.range 1 = [0] := rfl
  have hget1 : (-1000 :: List.replicate 40 (0 : ℚ)).get? 1 = some 0 := by
    rw [List.get?_eq_getElem?]
    simp
  have hget2 : (-1000 :: List.replicate 40 (0 : ℚ)).get? 2 = some 0 := by
    rw [List.get?_eq_getElem?]
    simp
  have hlow : percentileQ (5 / 2) (-1000 :: List.replicate 40 (0 : ℚ)) = 0 := by
    unfold percentileQ
    rw [hsql, hrank]
    unfold interpAt
    rw [hfloor1, hget1, hget2]
    dsimp only
    norm_num
  have hmean : meanQ (-1000 :: List.replicate 40 (0 : ℚ)) = -1000 / 41 := by
    unfold meanQ
    rw [List.sum_cons, List.sum_replicate, smul_zero, hlen41]
    norm_num
  have hL : (predictCB cexSamples).2.1.getD 0 0 = 0 := by
    show (predictPercentile (5 / 2) cexSamples).getD 0 0 = 0
    unfold predictPercentile
    rw [hw, hr1]
    simp only [List.map_cons, List.map_nil, List.getD_cons_zero]
    rw [hcol]
    exact hlow
  have hM : (predictCB cexSamples).1.getD 0 0 = -1000 / 41 := by
    show (predictMean cexSamples).getD 0 0 = -1000 / 41
    unfold predictMean
    rw [hw, hr1]
    simp only [List.map_cons, List.map_nil, List.getD_cons_zero]
    rw [hcol]
    exact hmean
  rw [hL, hM]
  norm_num

/-- Claim C4 (amended): `predict` with credible bounds returns three arrays
of identical shape, and the lower bound never exceeds the upper bound at any
entry; the mean, however, need not lie between the two bounds. -/
theorem predict_bounds_amended_c4 :
    ∀ samples : List (List ℚ),
      (predictCB samples).1.length = (predictCB samples).2.1.length ∧
      (predictCB samples).2.1.length = (predictCB samples).2.2.length ∧
      ∀ j : Nat,
        (predictCB samples).2.1.getD j 0 ≤ (predictCB samples).2.2.getD j 0 := by
  intro samples
  refine ⟨by simp [predictCB, predictMean, predictPercentile],
    by simp [predictCB, predictPercentile], ?_⟩
  intro j
  show (predictPercentile (5 / 2) samples).getD j 0
      ≤ (predictPercentile (195 / 2) samples).getD j 0
  unfold predictPercentile
  rw [getD_map_range, getD_map_range]
  by_cases h : j < sampleWidth samples
  · rw [if_pos h, if_pos h]
    exact percentileQ_mono _ (by norm_num) (by norm_num) (by norm_num)
  · rw [if_neg h, if_neg h]

/-- Claim C8: `_uprank` promotes rank-0 and rank-1 shapes to a single-column
2-D shape and passes rank-2 shapes through, and it does reject every rank-3
or higher input immediately — but with an `AttributeError` (the source
formats its `ValueError` message with the nonexistent `np.ndims`), not with
the intended validation error, which is a slip in the code. -/
theorem uprank_rank_error_c8 :
    uprankShape [] = .ok [1, 1] ∧
    (∀ n : Nat, uprankShape [n] = .ok [n, 1]) ∧
    (∀ n m : Nat, uprankShape [n, m] = .ok [n, m]) ∧
    (∀ (a b c : Nat) (r : List Nat),
      uprankShape (a :: b :: c :: r) = .error .attributeError ∧
      uprankShape (a :: b :: c :: r) ≠ .error .valueError) := by
  refine ⟨rfl, fun n => rfl, fun n m => rfl, fun a b c r => ?_⟩
  have hgt : (a :: b :: c :: r).length > 2 := by
    simp only [List.length_cons]; omega
  constructor
  · unfold uprankShape
    rw [if_pos hgt]
  · unfold uprankShape
    rw [if_pos hgt]
    intro h
    simp at h

/-- Claim C9: on an unfit model, `sample(..., posterior=True)` and
`logpdf(..., posterior=True)` are rejected with the state error
(`RuntimeError`) before any sampling or density computation, for every
otherwise valid input. -/
theorem posterior_before_fit_c9 :
    ∀ (xRank yRank : Nat) (pGiven : Bool), xRank ≤ 2 → yRank ≤ 2 →
      sampleEntry xRank false true pGiven = .error .runtimeError ∧
      logpdfEntry xRank yRank false true = .error .runtimeError := by
  intro xr yr pg hx hy
  constructor
  · have h1 : ¬ xr > 2 := by omega
    simp [sampleEntry, h1]
  · have h1 : ¬ (xr > 2 ∨ yr > 2) := by omega
    simp [logpdfEntry, h1]

/-- Claim C9 witness: the rejection evaluated at rank-2 inputs. -/
theorem posterior_before_fit_c9_witness :
    (2 ≤ 2 ∧ 2 ≤ 2) ∧
    sampleEntry 2 false true false = .error .runtimeError ∧
    logpdfEntry 2 2 false true = .error .runtimeError :=
  ⟨⟨by decide, by decide⟩,
   posterior_before_fit_c9 2 2 false (by decide) (by decide)⟩

/-- Claim C10: `sample` with `num_samples = 1` returns the single drawn
array directly, not wrapped in a list, and with `num_samples = n > 1` it
returns a list of exactly `n` drawn arrays. -/
theorem sample_return_shape_c10 :
    (∀ draw : Nat → ℚ, sampleReturn draw 1 = .single (draw 0)) ∧
    (∀ (draw : Nat → ℚ) (n : Nat), 1 < n →
      sampleReturn draw n = .list ((List.range n).map draw) ∧
      ((List.range n).map draw).length = n) := by
  constructor
  · intro draw
    rfl
  · intro draw n hn
    have h1 : (n == 1) = false := beq_eq_false_iff_ne.mpr (by omega)
    exact ⟨by simp [sampleReturn, h1], by simp⟩

/-- Claim C10 witness: the list shape evaluated at two samples. -/
theorem sample_return_shape_c10_witness :
    1 < 2 ∧
    sampleReturn (fun k => (k : ℚ)) 2
      = .list ((List.range 2).map (fun k => (k : ℚ))) :=
  ⟨by decide,
   (sample_return_shape_c10.2 (fun k => (k : ℚ)) 2 (by decide)).1⟩

end GPARRegression
